import Mathlib

set_option maxHeartbeats 1000000

/- Verification of the response-normalization logic of src/server.js.

   JavaScript strings are modelled as List Char.  JSON.parse is modelled by an
   executable recursive-descent parser of the JSON grammar (numbers are kept as
   their lexemes, since no flow inspects numeric values; duplicate object keys
   are kept in parse order and resolved last-wins at property access, matching
   the observable behaviour of JavaScript objects built by JSON.parse).
   Each route handler response step is a function from the raw model reply to
   the response body; Except.error marks an HTTP error response. -/

inductive JValue : Type where
  | null : JValue
  | bool : Bool → JValue
  | num : String → JValue
  | str : String → JValue
  | arr : List JValue → JValue
  | obj : List (String × JValue) → JValue

/-- JSON whitespace accepted by JSON.parse: space, tab, newline, carriage return. -/
def isJsonWS (c : Char) : Bool :=
  (c == ' ') || (c == '\t') || (c == '\n') || (c == '\r')

def skipWs (cs : List Char) : List Char :=
  cs.dropWhile isJsonWS

def isHexDigitCh (c : Char) : Bool :=
  c.isDigit || decide ('a' ≤ c ∧ c ≤ 'f') || decide ('A' ≤ c ∧ c ≤ 'F')

def hexVal (c : Char) : Nat :=
  if c.isDigit then c.toNat - 48
  else if decide ('a' ≤ c) then c.toNat - 87
  else c.toNat - 55

/-- Body of a JSON string literal, after the opening quote: returns the decoded
content and the remaining input after the closing quote.  Unescaped control
characters are rejected, escapes are those of the JSON grammar. -/
def parseStrBody : Nat → List Char → Option (List Char × List Char)
  | 0, _ => none
  | _, [] => none
  | fuel+1, c :: r =>
    if c == '"' then some ([], r)
    else if c == '\\' then
      match r with
      | [] => none
      | e :: r2 =>
        if e == '"' then (parseStrBody fuel r2).map (fun p => ('"' :: p.1, p.2))
        else if e == '\\' then (parseStrBody fuel r2).map (fun p => ('\\' :: p.1, p.2))
        else if e == '/' then (parseStrBody fuel r2).map (fun p => ('/' :: p.1, p.2))
        else if e == 'b' then (parseStrBody fuel r2).map (fun p => ('\x08' :: p.1, p.2))
        else if e == 'f' then (parseStrBody fuel r2).map (fun p => ('\x0c' :: p.1, p.2))
        else if e == 'n' then (parseStrBody fuel r2).map (fun p => ('\n' :: p.1, p.2))
        else if e == 'r' then (parseStrBody fuel r2).map (fun p => ('\r' :: p.1, p.2))
        else if e == 't' then (parseStrBody fuel r2).map (fun p => ('\t' :: p.1, p.2))
        else if e == 'u' then
          match r2 with
          | h1 :: h2 :: h3 :: h4 :: r3 =>
            if isHexDigitCh h1 && isHexDigitCh h2 && isHexDigitCh h3 && isHexDigitCh h4 then
              (parseStrBody fuel r3).map (fun p =>
                (Char.ofNat (((hexVal h1 * 16 + hexVal h2) * 16 + hexVal h3) * 16 + hexVal h4)
                  :: p.1, p.2))
            else none
          | _ => none
        else none
    else if c.toNat < 32 then none
    else (parseStrBody fuel r).map (fun p => (c :: p.1, p.2))

/-- Integer part of a JSON number: either a single 0 or a nonzero digit followed
by digits. -/
def parseIntDigits : List Char → Option (List Char × List Char)
  | [] => none
  | c :: r =>
    if c == '0' then some (['0'], r)
    else if c.isDigit then some (c :: r.takeWhile Char.isDigit, r.dropWhile Char.isDigit)
    else none

def parseFracPart (cs : List Char) : List Char × List Char :=
  match cs with
  | '.' :: r =>
    match r.takeWhile Char.isDigit with
    | [] => ([], cs)
    | d => ('.' :: d, r.dropWhile Char.isDigit)
  | _ => ([], cs)

def parseExpPart (cs : List Char) : List Char × List Char :=
  match cs with
  | e :: r =>
    if e == 'e' || e == 'E' then
      match r with
      | s :: r2 =>
        if s == '+' || s == '-' then
          match r2.takeWhile Char.isDigit with
          | [] => ([], cs)
          | d => (e :: s :: d, r2.dropWhile Char.isDigit)
        else
          match r.takeWhile Char.isDigit with
          | [] => ([], cs)
          | d => (e :: d, r.dropWhile Char.isDigit)
      | [] => ([], cs)
    else ([], cs)
  | [] => ([], cs)

/-- A JSON number token, returned as its lexeme. -/
def parseNumber (cs : List Char) : Option (List Char × List Char) :=
  let neg : Bool := cs.head? == some '-'
  let cs1 := if neg then cs.tail else cs
  match parseIntDigits cs1 with
  | none => none
  | some (ip, r1) =>
    let fr := parseFracPart r1
    let ex := parseExpPart fr.2
    some ((if neg then ['-'] else []) ++ ip ++ fr.1 ++ ex.1, ex.2)

mutual

/-- One JSON value (leading whitespace allowed), with the rest of the input. -/
def parseValue : Nat → List Char → Option (JValue × List Char)
  | 0, _ => none
  | fuel+1, cs =>
    match skipWs cs with
    | [] => none
    | '{' :: r =>
      match skipWs r with
      | '}' :: r2 => some (JValue.obj [], r2)
      | _ => parseObjFields fuel r []
    | '[' :: r =>
      match skipWs r with
      | ']' :: r2 => some (JValue.arr [], r2)
      | _ => parseArrElems fuel r []
    | '"' :: r =>
      match parseStrBody (r.length + 1) r with
      | some (content, rest) => some (JValue.str (String.mk content), rest)
      | none => none
    | c :: r =>
      if c == 't' then
        if ['r', 'u', 'e'].isPrefixOf r then some (JValue.bool true, r.drop 3) else none
      else if c == 'f' then
        if ['a', 'l', 's', 'e'].isPrefixOf r then some (JValue.bool false, r.drop 4) else none
      else if c == 'n' then
        if ['u', 'l', 'l'].isPrefixOf r then some (JValue.null, r.drop 3) else none
      else if c == '-' || c.isDigit then
        match parseNumber (c :: r) with
        | some (lex, rest) => some (JValue.num (String.mk lex), rest)
        | none => none
      else none

/-- Members of a JSON object, after the opening brace (object known nonempty). -/
def parseObjFields : Nat → List Char → List (String × JValue) →
    Option (JValue × List Char)
  | 0, _, _ => none
  | fuel+1, cs, acc =>
    match skipWs cs with
    | '"' :: r =>
      match parseStrBody (r.length + 1) r with
      | some (key, r2) =>
        match skipWs r2 with
        | ':' :: r3 =>
          match parseValue fuel r3 with
          | some (v, r4) =>
            match skipWs r4 with
            | ',' :: r5 => parseObjFields fuel r5 (acc ++ [(String.mk key, v)])
            | '}' :: r5 => some (JValue.obj (acc ++ [(String.mk key, v)]), r5)
            | _ => none
          | none => none
        | _ => none
      | none => none
    | _ => none

/-- Elements of a JSON array, after the opening bracket (array known nonempty). -/
def parseArrElems : Nat → List Char → List JValue → Option (JValue × List Char)
  | 0, _, _ => none
  | fuel+1, cs, acc =>
    match parseValue fuel cs with
    | some (v, r1) =>
      match skipWs r1 with
      | ',' :: r2 => parseArrElems fuel r2 (acc ++ [v])
      | ']' :: r2 => some (JValue.arr (acc ++ [v]), r2)
      | _ => none
    | none => none

end

/-- Model of JavaScript JSON.parse: a full-input strict parse.  The fuel
2*length+2 dominates the recursion depth, since every two nested calls consume
at least one input character. -/
def jsonParse (cs : List Char) : Option JValue :=
  match parseValue (2 * cs.length + 2) cs with
  | some (v, rest) => if (skipWs rest).isEmpty then some v else none
  | none => none

/-- Property lookup on a parsed object: JavaScript keeps the last duplicate key. -/
def jsonGet (o : List (String × JValue)) (k : String) : Option JValue :=
  o.foldl (fun acc kv => if kv.1 = k then some kv.2 else acc) none

/-- The first match of the regular expression \x7b[\s\S]*\x7d (greedy): the span
from the first opening brace to the last closing brace after it, when both
exist.  fullResponse.match returns null exactly when this is none. -/
def braceSpan (cs : List Char) : Option (List Char) :=
  let t := cs.dropWhile (fun c => c != '{')
  let r := (t.reverse.dropWhile (fun c => c != '}')).reverse
  if r.isEmpty then none else some r

/-- Whitespace class of the JavaScript regex \s and of String.prototype.trim
(ASCII part plus the common Unicode members). -/
def isRegexSpace (c : Char) : Bool :=
  (c == ' ') || (c == '\t') || (c == '\n') || (c == '\r') || (c == '\x0b') ||
  (c == '\x0c') || (c == '\u00A0') || (c == '\uFEFF') || (c == '\u2028') || (c == '\u2029')

def jsTrim (s : List Char) : List Char :=
  ((s.dropWhile isRegexSpace).reverse.dropWhile isRegexSpace).reverse

/-- First index at which needle occurs as a sublist, as in String.indexOf. -/
def jsIndexOfSubAux (needle : List Char) : List Char → Nat → Option Nat
  | [], i => if needle.isEmpty then some i else none
  | s@(_ :: t), i => if needle.isPrefixOf s then some i else jsIndexOfSubAux needle t (i + 1)

def jsIndexOfSub (cs needle : List Char) : Option Nat :=
  jsIndexOfSubAux needle cs 0

/-- Length of the match of /```json\s*|\s*```/ at this position, trying the
first alternative first, as the regex engine does. -/
def mcqFenceLenAt (s : List Char) : Option Nat :=
  if ("```json".data).isPrefixOf s then
    some (7 + ((s.drop 7).takeWhile isRegexSpace).length)
  else
    let w := (s.takeWhile isRegexSpace).length
    if ("```".data).isPrefixOf (s.drop w) then some (w + 3) else none

def stripFencesGo : Nat → List Char → List Char
  | 0, s => s
  | fuel+1, s =>
    match s with
    | [] => []
    | c :: t =>
      match mcqFenceLenAt s with
      | some n => stripFencesGo fuel (s.drop n)
      | none => c :: stripFencesGo fuel t

/-- content.replace(/```json\s*|\s*```/g, ""), the markdown cleanup of the MCQ
flow: a left-to-right scan deleting each leftmost match. -/
def stripFencesMcq (s : List Char) : List Char :=
  stripFencesGo s.length s

def isWordCh (c : Char) : Bool :=
  c.isAlphanum || c == '_'

/-- Match of /```[\w]*\n([\s\S]*?)```/ at this position: returns the lazy
capture group and the total match length. -/
def fenceBlockAt (s : List Char) : Option (List Char × Nat) :=
  if ("```".data).isPrefixOf s then
    let w := (s.drop 3).takeWhile isWordCh
    match (s.drop 3).dropWhile isWordCh with
    | '\n' :: body =>
      match jsIndexOfSub body ("```".data) with
      | some i => some (body.take i, 3 + w.length + 1 + i + 3)
      | none => none
    | _ => none
  else none

def replaceFenceGo : Nat → List Char → List Char
  | 0, s => s
  | fuel+1, s =>
    match s with
    | [] => []
    | c :: t =>
      match fenceBlockAt s with
      | some (body, n) => body ++ replaceFenceGo fuel (s.drop n)
      | none => c :: replaceFenceGo fuel t

/-- fullResponse.replace(/```[\w]*\n([\s\S]*?)```/g, "$1"): fenced code blocks
are replaced by their inner content. -/
def replaceFenceBlocks (s : List Char) : List Char :=
  replaceFenceGo s.length s

/-- A number lexeme denotes zero exactly when its mantissa holds no nonzero
digit. -/
def numIsZero (s : List Char) : Bool :=
  (s.takeWhile (fun c => c != 'e' && c != 'E')).all (fun c => !(c.isDigit && c != '0'))

/-- JavaScript truthiness of a JSON value (undefined is handled by the Option
layer at each use site). -/
def jsTruthy : JValue → Bool
  | JValue.null => false
  | JValue.bool b => b
  | JValue.num lex => !(numIsZero lex.data)
  | JValue.str s => !s.isEmpty
  | JValue.arr _ => true
  | JValue.obj _ => true

/-- Response record of the debug flow: field values stay arbitrary JSON values,
as the JavaScript defaulting step does not coerce types. -/
structure SolutionRecord where
  code : JValue
  thoughts : JValue
  time_complexity : JValue
  space_complexity : JValue

/-- Output of the first-revision zod schema SolutionResponse (all fields
required), used by POST /api/generate. -/
structure StrictSolution where
  thoughts : List String
  code : String
  time_complexity : String
  space_complexity : String

/-- Output of the second-revision zod schema SolutionResponse (all four fields
marked .optional()), used by /claude/api/generate and /mistral/api/generate. -/
structure OptSolution where
  thoughts : Option (List String)
  code : Option String
  time_complexity : Option String
  space_complexity : Option String

/-- Output of the zod schema ExtractResponse of POST /api/extract. -/
structure ExtractRecord where
  problem_statement : String
  test_cases : List JValue

/-- Response record of the MCQ manual-recovery path of POST /api/answer-mcq. -/
structure McqRecord where
  correctOption : String
  thoughts : List String
  explanation : String

/-- JavaScript property access v.k: lookup on objects, undefined elsewhere
(access on null throws, which each use site handles before calling this). -/
def jsProp (v : JValue) (k : String) : Option JValue :=
  match v with
  | JValue.obj o => jsonGet o k
  | _ => none

/-- Default-substitution step of POST /api/debug (src/server.js lines 984-990):
code falls back to the empty string when falsy, thoughts to a placeholder
sequence unless an array, the complexities to the sentinel when falsy.
Property access on a parsed null throws, yielding none. -/
def debugDefaultsV (v : JValue) : Option SolutionRecord :=
  match v with
  | JValue.null => none
  | _ => some
    { code :=
        (match jsProp v "code" with
         | some w => if jsTruthy w then w else JValue.str ""
         | none => JValue.str "")
      thoughts :=
        (match jsProp v "thoughts" with
         | some (JValue.arr l) => JValue.arr l
         | _ => JValue.arr [JValue.str "No specific debug observations provided"])
      time_complexity :=
        (match jsProp v "time_complexity" with
         | some w => if jsTruthy w then w else JValue.str "Not specified"
         | none => JValue.str "Not specified")
      space_complexity :=
        (match jsProp v "space_complexity" with
         | some w => if jsTruthy w then w else JValue.str "Not specified"
         | none => JValue.str "Not specified") }

/-- Fallback record of POST /api/debug when parsing throws (lines 997-1002). -/
def debugFallback (s : List Char) : SolutionRecord :=
  let c := jsTrim (replaceFenceBlocks s)
  { code := JValue.str (String.mk (if c.isEmpty then s else c))
    thoughts := JValue.arr [JValue.str "Automatically extracted from unstructured debug response"]
    time_complexity := JValue.str "Could not determine from response"
    space_complexity := JValue.str "Could not determine from response" }

/-- Response step of POST /api/debug on the raw model text (lines 973-1005):
greedy brace span when present, otherwise whole-text parse; any throw inside
the try block falls back to the fixed fallback record. -/
def debugRespond (fullResponse : List Char) : Except String SolutionRecord :=
  match braceSpan fullResponse with
  | some span =>
    match jsonParse span with
    | some v =>
      match debugDefaultsV v with
      | some r => Except.ok r
      | none => Except.ok (debugFallback fullResponse)
    | none => Except.ok (debugFallback fullResponse)
  | none =>
    match jsonParse fullResponse with
    | some v =>
      match debugDefaultsV v with
      | some r => Except.ok r
      | none => Except.ok (debugFallback fullResponse)
    | none => Except.ok (debugFallback fullResponse)

def asStrList (l : List JValue) : Option (List String) :=
  l.mapM (fun v => match v with | JValue.str s => some s | _ => none)

/-- First-revision zod schema SolutionResponse.parse (line 452): every field
required, thoughts an array of strings, the rest strings; none on throw. -/
def zodSolutionStrict (v : JValue) : Option StrictSolution :=
  match v with
  | JValue.obj o =>
    match jsonGet o "thoughts", jsonGet o "code",
          jsonGet o "time_complexity", jsonGet o "space_complexity" with
    | some (JValue.arr l), some (JValue.str c), some (JValue.str t), some (JValue.str s) =>
      (match asStrList l with
       | some ts => some ⟨ts, c, t, s⟩
       | none => none)
    | _, _, _, _ => none
  | _ => none

/-- Response step of POST /api/generate (lines 540-550): a strict JSON parse of
the whole reply followed by the strict schema; any throw reaches the error
handler and becomes an HTTP 500 response. -/
def generateRespond (content : List Char) : Except String StrictSolution :=
  match jsonParse content with
  | none => Except.error "SyntaxError: JSON.parse failed"
  | some v =>
    match zodSolutionStrict v with
    | none => Except.error "ZodError: response does not match SolutionResponse"
    | some r => Except.ok r

/-- Zod schema ExtractResponse.parse (lines 297-300): problem_statement a
required string, test_cases an array defaulting to empty when absent. -/
def zodExtract (v : JValue) : Option ExtractRecord :=
  match v with
  | JValue.obj o =>
    match jsonGet o "problem_statement" with
    | some (JValue.str p) =>
      (match jsonGet o "test_cases" with
       | none => some ⟨p, []⟩
       | some (JValue.arr l) => some ⟨p, l⟩
       | some _ => none)
    | _ => none
  | _ => none

/-- Response step of POST /api/extract (lines 401-410): when no brace span is
found the handler throws, and any throw becomes an HTTP error response. -/
def extractRespond (contentText : List Char) : Except String ExtractRecord :=
  match braceSpan contentText with
  | none => Except.error "Could not extract JSON from the model response"
  | some span =>
    match jsonParse span with
    | none => Except.error "SyntaxError: JSON.parse failed"
    | some v =>
      match zodExtract v with
      | none => Except.error "ZodError: response does not match ExtractResponse"
      | some r => Except.ok r

def zodOptStr (o : List (String × JValue)) (k : String) : Option (Option String) :=
  match jsonGet o k with
  | none => some none
  | some (JValue.str s) => some (some s)
  | some _ => none

def zodOptThoughts (o : List (String × JValue)) : Option (Option (List String)) :=
  match jsonGet o "thoughts" with
  | none => some none
  | some (JValue.arr l) =>
    (match asStrList l with
     | some ts => some (some ts)
     | none => none)
  | some _ => none

/-- Second-revision zod schema SolutionResponse.parse (lines 1170-1175): all
four fields optional, present fields type-checked, unknown keys stripped. -/
def zodSolutionOpt (v : JValue) : Option OptSolution :=
  match v with
  | JValue.obj o =>
    match zodOptThoughts o, zodOptStr o "code", zodOptStr o "time_complexity",
          zodOptStr o "space_complexity" with
    | some ts, some c, some t, some s => some ⟨ts, c, t, s⟩
    | _, _, _, _ => none
  | _ => none

/-- Serialization of a second-revision parse result: only present fields appear
in the response body, in schema order. -/
def optPairs (r : OptSolution) : List (String × JValue) :=
  (match r.thoughts with
   | some ts => [("thoughts", JValue.arr (ts.map JValue.str))]
   | none => []) ++
  (match r.code with
   | some c => [("code", JValue.str c)]
   | none => []) ++
  (match r.time_complexity with
   | some t => [("time_complexity", JValue.str t)]
   | none => []) ++
  (match r.space_complexity with
   | some t => [("space_complexity", JValue.str t)]
   | none => [])

/-- Fallback body of the second-revision generate flows (lines 1263-1268). -/
def revisedFallbackJson (s : List Char) : JValue :=
  let c := jsTrim (replaceFenceBlocks s)
  JValue.obj
    [("code", JValue.str (String.mk (if c.isEmpty then s else c))),
     ("thoughts", JValue.arr [JValue.str "Automatically extracted from unstructured response"]),
     ("time_complexity", JValue.str "Could not determine from response"),
     ("space_complexity", JValue.str "Could not determine from response")]

/-- Response body of POST /claude/api/generate (lines 1250-1271) and of the
textually identical POST /mistral/api/generate (lines 1343-1365). -/
def revisedGenRespond (fullResponse : List Char) : JValue :=
  match braceSpan fullResponse with
  | some span =>
    match jsonParse span with
    | some v =>
      match zodSolutionOpt v with
      | some r => JValue.obj (optPairs r)
      | none => revisedFallbackJson fullResponse
    | none => revisedFallbackJson fullResponse
  | none =>
    match jsonParse fullResponse with
    | some v =>
      match zodSolutionOpt v with
      | some r => JValue.obj (optPairs r)
      | none => revisedFallbackJson fullResponse
    | none => revisedFallbackJson fullResponse

/-- Leftmost-match scan of a regex: try the matcher at every start position from
the left and return the first success. -/
def scanFirst (f : List Char → Option (List Char)) : List Char → Option (List Char)
  | [] => f []
  | c :: t =>
    match f (c :: t) with
    | some v => some v
    | none => scanFirst f t

def coKey : List Char := "\"correctOption\"".data

def thKey : List Char := "\"thoughts\"".data

def explKey : List Char := "\"explanation\"".data

/-- After the opening quote of the capture of /"([^"]+)"/: the capture is the
maximal quote-free run, nonempty and followed by a closing quote. -/
def coQuote (l : List Char) : Option (List Char) :=
  match l with
  | c :: r3 =>
    if c = '"' then
      (if (r3.takeWhile (fun x => x != '"')).isEmpty then none
       else if '"' ∈ r3 then some (r3.takeWhile (fun x => x != '"')) else none)
    else none
  | [] => none

/-- After the key of /"correctOption"\s*:\s*"([^"]+)"/: whitespace, a colon,
whitespace, then the quoted capture. -/
def coTail (l : List Char) : Option (List Char) :=
  match l with
  | c :: r2 => if c = ':' then coQuote (r2.dropWhile isRegexSpace) else none
  | [] => none

/-- Match of /"correctOption"\s*:\s*"([^"]+)"/ at one position: the greedy
subpatterns are deterministic here, so no backtracking is modelled. -/
def coMatchAt (s : List Char) : Option (List Char) :=
  if coKey.isPrefixOf s then coTail ((s.drop coKey.length).dropWhile isRegexSpace)
  else none

def coFind : List Char → Option (List Char) :=
  scanFirst coMatchAt

/-- correctOption recovery of POST /api/answer-mcq (lines 210-211). -/
def correctOptionOf (cleaned : List Char) : String :=
  match coFind cleaned with
  | some v => String.mk v
  | none => "Not specified"

/-- After the opening bracket of /\[([\s\S]*?)\]/: the lazy capture is
everything up to the first closing bracket, which must exist. -/
def thBracket (l : List Char) : Option (List Char) :=
  match l with
  | c :: r3 =>
    if c = '[' then
      (if ']' ∈ r3 then some (r3.takeWhile (fun x => x != ']')) else none)
    else none
  | [] => none

/-- After the key of /"thoughts"\s*:\s*\[([\s\S]*?)\]/: whitespace, a colon,
whitespace, then the bracketed capture. -/
def thTail (l : List Char) : Option (List Char) :=
  match l with
  | c :: r2 => if c = ':' then thBracket (r2.dropWhile isRegexSpace) else none
  | [] => none

/-- Match of /"thoughts"\s*:\s*\[([\s\S]*?)\]/ at one position. -/
def thMatchAt (s : List Char) : Option (List Char) :=
  if thKey.isPrefixOf s then thTail ((s.drop thKey.length).dropWhile isRegexSpace)
  else none

def thFind : List Char → Option (List Char) :=
  scanFirst thMatchAt

/-- Lookahead (?=\s*") used by the split of the thoughts array. -/
def lookaheadQuote (t : List Char) : Bool :=
  match t.dropWhile isRegexSpace with
  | '"' :: _ => true
  | _ => false

/-- inner.split(/,(?=\s*")/g): split at commas followed by optional whitespace
and a quote; the lookahead consumes nothing. -/
def splitCQ : List Char → List (List Char)
  | [] => [[]]
  | c :: t =>
    if c == ',' && lookaheadQuote t then
      [] :: splitCQ t
    else
      match splitCQ t with
      | [] => [[c]]
      | p :: ps => (c :: p) :: ps

/-- item.match(/"([\s\S]*?)"/): content between the first two quotes, falling
back to item.trim() when there is no quoted content (lines 220-224). -/
def extractItem (item : List Char) : List Char :=
  match item.dropWhile (fun c => c != '"') with
  | _ :: rest =>
    if '"' ∈ rest then rest.takeWhile (fun c => c != '"')
    else jsTrim item
  | [] => jsTrim item

/-- Split, per-item extraction and empty-item filtering of the thoughts
recovery (lines 218-225). -/
def thPipeline (inner : List Char) : List String :=
  (((splitCQ inner).map extractItem).filter (fun l => !l.isEmpty)).map String.mk

/-- thoughts recovery of POST /api/answer-mcq (lines 214-226). -/
def thoughtsOf (cleaned : List Char) : List String :=
  match thFind cleaned with
  | some inner => thPipeline inner
  | none => ["No specific reasoning provided"]

/-- String.indexOf(c, start): first index of c at or after start, none for -1. -/
def jsIndexOfCharFrom (cs : List Char) (c : Char) (start : Nat) : Option Nat :=
  ((cs.drop start).findIdx? (fun x => x == c)).map (fun i => i + start)

/-- Locates the explanation scan region (lines 229-238): the text after the
first quote that follows the first colon at or after the key.  The JavaScript
indexOf calls return -1 on absence, which the +1 turns into index 0; the none
branches of the inner matches reproduce that arithmetic. -/
def explRemaining (cs : List Char) : Option (List Char) :=
  match jsIndexOfSub cs explKey with
  | none => none
  | some k =>
    let cIdx : Nat :=
      match jsIndexOfCharFrom cs ':' k with
      | some j => j + 1
      | none => 0
    let qIdx : Nat :=
      match jsIndexOfCharFrom cs '"' cIdx with
      | some j => j + 1
      | none => 0
    some (cs.drop qIdx)

/-- remainingText.substring(i+1).trim().startsWith with a closing brace: after
discarding whitespace, the next character is a closing brace. -/
def braceFollowsB (t : List Char) : Bool :=
  (t.dropWhile isRegexSpace).head? == some '}'

/-- Loop condition of the explanation scan (lines 242-249): a quote, not
escaped, with only whitespace before a closing brace. -/
def termQuoteB (rem : List Char) (i : Nat) : Bool :=
  (rem.getD i ' ' == '"') &&
  ((i == 0) || !(rem.getD (i - 1) ' ' == '\\')) &&
  braceFollowsB (rem.drop (i + 1))

def findEndQuoteGo (rem : List Char) : Nat → Nat → Option Nat
  | 0, _ => none
  | fuel+1, i =>
    if i < rem.length then
      (if termQuoteB rem i then some i else findEndQuoteGo rem fuel (i + 1))
    else none

/-- First index satisfying the scan condition, as the JavaScript for loop; the
fuel equals the remaining loop iterations. -/
def findEndQuote (rem : List Char) : Option Nat :=
  findEndQuoteGo rem rem.length 0

/-- Global replacement of the two-character sequence a b by rep, scanning left
to right without overlap, as String.replace with a /ab/g pattern. -/
def replaceEsc (a b rep : Char) : List Char → List Char
  | [] => []
  | [c] => [c]
  | c1 :: c2 :: t =>
    if c1 == a && c2 == b then rep :: replaceEsc a b rep t
    else c1 :: replaceEsc a b rep (c2 :: t)

/-- .replace(/\\n/g, newline).replace(/\\"/g, quote) of line 252-254. -/
def unescapeExpl (l : List Char) : List Char :=
  replaceEsc '\\' '"' '"' (replaceEsc '\\' 'n' '\n' l)

/-- explanation recovery of POST /api/answer-mcq (lines 229-256). -/
def explanationOf (cs : List Char) : String :=
  match explRemaining cs with
  | none => "No explanation provided"
  | some rem =>
    match findEndQuote rem with
    | none => "No explanation provided"
    | some i => String.mk (unescapeExpl (rem.take i))

/-- Last-resort fallback record of POST /api/answer-mcq (lines 272-276). -/
def mcqFallbackResponse (content : List Char) : McqRecord :=
  { correctOption := "Could not determine"
    thoughts := ["Failed to parse structured response from model"]
    explanation := String.mk ((stripFencesMcq content).take 500) }

/-- Markdown cleanup of the MCQ reply (lines 195-197). -/
def mcqCleaned (content : List Char) : List Char :=
  jsTrim (stripFencesMcq content)

/-- Manual field-by-field recovery record (lines 208-263). -/
def mcqManual (cleaned : List Char) : McqRecord :=
  { correctOption := correctOptionOf cleaned
    thoughts := thoughtsOf cleaned
    explanation := explanationOf cleaned }

def mcqRecordJson (r : McqRecord) : JValue :=
  JValue.obj
    [("correctOption", JValue.str r.correctOption),
     ("thoughts", JValue.arr (r.thoughts.map JValue.str)),
     ("explanation", JValue.str r.explanation)]

/-- Response step of POST /api/answer-mcq (lines 193-279): a direct parse of
the cleaned reply is returned as is; on parse failure the manual recovery
record is returned.  The recovery functions are total, so the outer catch that
builds mcqFallbackResponse is not reachable through them. -/
def mcqRespond (content : List Char) : Except String JValue :=
  match jsonParse (mcqCleaned content) with
  | some v => Except.ok v
  | none => Except.ok (mcqRecordJson (mcqManual (mcqCleaned content)))

/-- All characters in the regex whitespace class. -/
def AllSpace (w : List Char) : Prop :=
  ∀ c ∈ w, isRegexSpace c = true

/-- Declarative reading of one match of /"correctOption"\s*:\s*"([^"]+)"/ with
capture v, following the words of the specification. -/
def CoDecomp (s v : List Char) : Prop :=
  ∃ w1 w2 rest, s = coKey ++ w1 ++ ':' :: (w2 ++ '"' :: (v ++ '"' :: rest)) ∧
    AllSpace w1 ∧ AllSpace w2 ∧ v ≠ [] ∧ '"' ∉ v

/-- Declarative reading of one match of /"thoughts"\s*:\s*\[([\s\S]*?)\]/ with
capture inner, following the words of the specification. -/
def ThDecomp (s inner : List Char) : Prop :=
  ∃ w1 w2 rest, s = thKey ++ w1 ++ ':' :: (w2 ++ '[' :: (inner ++ ']' :: rest)) ∧
    AllSpace w1 ∧ AllSpace w2 ∧ ']' ∉ inner

/-- Declarative reading of the terminating-quote condition of the explanation
scan, following the words of the specification. -/
def IsTermQuote (rem : List Char) (i : Nat) : Prop :=
  i < rem.length ∧ rem.getD i ' ' = '"' ∧ (i = 0 ∨ rem.getD (i - 1) ' ' ≠ '\\') ∧
    ((rem.drop (i + 1)).dropWhile isRegexSpace).head? = some '}'

instance (rem : List Char) (i : Nat) : Decidable (IsTermQuote rem i) := by
  unfold IsTermQuote; infer_instance

-- Concrete model replies used by the witnesses and counterexamples below.

def exExpl : List Char :=
  "\x7b\"correctOption\": \"B\", \"explanation\": \"The answer is \"B\" because...\"\x7d".data

def exExplRem : List Char := "The answer is \"B\" because...\"\x7d".data

def exCo : List Char := "\"correctOption\": \"B\"".data

def exTh : List Char := "\"thoughts\": [\"First, consider X\", \"Then, apply Y\"]".data

def fenceReply : List Char :=
  "Here\x27s the answer:\n```json\n\x7b\"code\":\"x\",\"thoughts\":[\"a\"],\"time_complexity\":\"O(1)\",\"space_complexity\":\"O(1)\"\x7d\n```".data

def quirkyReply : List Char := "[\"\x7b\",\"\x7d\"]".data

def exDefaults : List Char := "\x7b\"code\":\"x\",\"thoughts\":[\"a\"]\x7d".data

def exRound : List Char :=
  "\x7b\"code\":\"x\",\"thoughts\":[\"a\"],\"time_complexity\":\"\",\"space_complexity\":\"O(1)\"\x7d".data

def exRound2 : List Char :=
  "\x7b\"code\":\"\",\"thoughts\":[],\"time_complexity\":\"O(n)\",\"space_complexity\":\"O(1)\"\x7d".data

/-- Well-typedness of one field of a second-revision response record: the key
is one of the four contract keys and its value has the contract type; a
present thoughts field is a string array, never null. -/
def FieldOk (kv : String × JValue) : Prop :=
  (kv.1 = "thoughts" ∨ kv.1 = "code" ∨ kv.1 = "time_complexity" ∨
    kv.1 = "space_complexity") ∧
  (kv.1 = "thoughts" → ∃ ts : List String, kv.2 = JValue.arr (ts.map JValue.str)) ∧
  (kv.1 = "code" → ∃ c, kv.2 = JValue.str c) ∧
  (kv.1 = "time_complexity" → ∃ t, kv.2 = JValue.str t) ∧
  (kv.1 = "space_complexity" → ∃ t, kv.2 = JValue.str t)

def exOpt : List Char := "\x7b\"code\":\"x\"\x7d".data

theorem isPrefixOf_iff_exists {l₁ l₂ : List Char} :
    l₁.isPrefixOf l₂ = true ↔ ∃ t, l₂ = l₁ ++ t := by
  rw [List.isPrefixOf_iff_prefix]
  constructor
  · rintro ⟨t, rfl⟩
    exact ⟨t, rfl⟩
  · rintro ⟨t, rfl⟩
    exact ⟨t, rfl⟩

theorem dropWhile_append_all {p : Char → Bool} {w t : List Char}
    (hw : ∀ c ∈ w, p c = true) :
    (w ++ t).dropWhile p = t.dropWhile p := by
  induction w with
  | nil => rfl
  | cons c w ih =>
    have hc : p c = true := hw c (by simp)
    simp only [List.cons_append, List.dropWhile_cons_of_pos hc]
    exact ih (fun x hx => hw x (by simp [hx]))

theorem dropWhile_append_stop {p : Char → Bool} {w : List Char} {c : Char} {t : List Char}
    (hw : ∀ x ∈ w, p x = true) (hc : p c = false) :
    (w ++ c :: t).dropWhile p = c :: t := by
  rw [dropWhile_append_all hw, List.dropWhile_cons_of_neg (by simp [hc])]

theorem takeWhile_append_stop {p : Char → Bool} {w : List Char} {c : Char} {t : List Char}
    (hw : ∀ x ∈ w, p x = true) (hc : p c = false) :
    (w ++ c :: t).takeWhile p = w := by
  induction w with
  | nil =>
    simp only [List.nil_append]
    exact List.takeWhile_cons_of_neg (by simp [hc])
  | cons a w ih =>
    have ha : p a = true := hw a (by simp)
    simp only [List.cons_append, List.takeWhile_cons_of_pos ha]
    rw [ih (fun x hx => hw x (by simp [hx]))]

theorem dropWhile_cons_inv {p : Char → Bool} : ∀ {l : List Char} {c : Char} {t : List Char},
    l.dropWhile p = c :: t → p c = false := by
  intro l
  induction l with
  | nil => intro c t h; simp [List.dropWhile] at h
  | cons a l ih =>
    intro c t h
    by_cases ha : p a
    · rw [List.dropWhile_cons_of_pos ha] at h
      exact ih h
    · rw [List.dropWhile_cons_of_neg ha] at h
      cases h
      simpa using ha

theorem split_of_dropWhile_cons {p : Char → Bool} {l : List Char} {c : Char} {t : List Char}
    (h : l.dropWhile p = c :: t) :
    l = l.takeWhile p ++ c :: t ∧ (∀ x ∈ l.takeWhile p, p x = true) ∧ p c = false := by
  refine ⟨?_, ?_, dropWhile_cons_inv h⟩
  · conv_lhs => rw [← List.takeWhile_append_dropWhile (p := p) (l := l)]
    rw [h]
  · intro x hx
    exact List.mem_takeWhile_imp hx

theorem mem_split_takeWhile_ne {a : Char} {l : List Char} (h : a ∈ l) :
    ∃ t, l = l.takeWhile (fun c => c != a) ++ a :: t ∧
      a ∉ l.takeWhile (fun c => c != a) := by
  induction l with
  | nil => cases h
  | cons b l ih =>
    by_cases hb : b = a
    · subst hb
      refine ⟨l, ?_, ?_⟩
      · simp [List.takeWhile_cons_of_neg]
      · simp [List.takeWhile_cons_of_neg]
    · have hmem : a ∈ l := by
        rcases List.mem_cons.mp h with h1 | h1
        · exact absurd h1.symm hb
        · exact h1
      obtain ⟨t, hl, hnm⟩ := ih hmem
      have hbne : (b != a) = true := by simp [bne_iff_ne, hb]
      refine ⟨t, ?_, ?_⟩
      · rw [List.takeWhile_cons_of_pos (p := fun c => c != a) (l := l) hbne]
        conv_lhs => rw [hl]
        simp
      · rw [List.takeWhile_cons_of_pos (p := fun c => c != a) (l := l) hbne]
        intro hc
        rcases List.mem_cons.mp hc with h1 | h1
        · exact hb h1.symm
        · exact hnm h1

theorem scanFirst_some_spec (f : List Char → Option (List Char))
    (P : List Char → List Char → Prop)
    (hf : ∀ s v, f s = some v ↔ P s v) :
    ∀ s v, scanFirst f s = some v →
      ∃ n, P (s.drop n) v ∧ ∀ m, m < n → ∀ u, ¬ P (s.drop m) u := by
  intro s
  induction s with
  | nil =>
    intro v h
    simp only [scanFirst] at h
    refine ⟨0, (hf [] v).1 h, ?_⟩
    intro m hm u
    exact absurd hm (Nat.not_lt_zero m)
  | cons c t ih =>
    intro v h
    simp only [scanFirst] at h
    cases hfc : f (c :: t) with
    | some w =>
      rw [hfc] at h
      simp only [Option.some.injEq] at h
      subst h
      refine ⟨0, (hf _ _).1 hfc, ?_⟩
      intro m hm u
      exact absurd hm (Nat.not_lt_zero m)
    | none =>
      rw [hfc] at h
      obtain ⟨n, hP, hmin⟩ := ih v h
      refine ⟨n + 1, hP, ?_⟩
      intro m hm u
      cases m with
      | zero =>
        intro hP0
        have h2 := (hf _ u).2 (by simpa using hP0)
        rw [h2] at hfc
        exact Option.noConfusion hfc
      | succ m =>
        exact hmin m (by omega) u

theorem scanFirst_none_spec (f : List Char → Option (List Char))
    (P : List Char → List Char → Prop)
    (hf : ∀ s v, f s = some v ↔ P s v) :
    ∀ s, scanFirst f s = none → ∀ n u, ¬ P (s.drop n) u := by
  intro s
  induction s with
  | nil =>
    intro h n u hP
    simp only [scanFirst] at h
    rw [List.drop_nil] at hP
    have h2 := (hf [] u).2 hP
    rw [h2] at h
    exact Option.noConfusion h
  | cons c t ih =>
    intro h n u
    simp only [scanFirst] at h
    cases hfc : f (c :: t) with
    | some w =>
      rw [hfc] at h
      exact absurd h (by simp)
    | none =>
      rw [hfc] at h
      cases n with
      | zero =>
        intro hP
        have h2 := (hf _ u).2 (by simpa using hP)
        rw [h2] at hfc
        exact Option.noConfusion hfc
      | succ n =>
        exact ih h n u

theorem coMatchAt_iff {s v : List Char} : coMatchAt s = some v ↔ CoDecomp s v := by
  constructor
  · intro h
    unfold coMatchAt at h
    split at h
    case isFalse => exact absurd h (by simp)
    case isTrue hpre =>
      obtain ⟨u, rfl⟩ := isPrefixOf_iff_exists.mp hpre
      rw [List.drop_left] at h
      cases hd1 : u.dropWhile isRegexSpace with
      | nil => rw [hd1] at h; simp [coTail] at h
      | cons c r2 =>
        rw [hd1] at h
        simp only [coTail] at h
        split at h
        case isFalse => exact absurd h (by simp)
        case isTrue hc =>
          subst hc
          cases hd2 : r2.dropWhile isRegexSpace with
          | nil => rw [hd2] at h; simp [coQuote] at h
          | cons d r3 =>
            rw [hd2] at h
            simp only [coQuote] at h
            split at h
            case isFalse => exact absurd h (by simp)
            case isTrue hd =>
              subst hd
              split at h
              case isTrue => exact absurd h (by simp)
              case isFalse hE =>
                split at h
                case isFalse => exact absurd h (by simp)
                case isTrue hM =>
                  obtain ⟨hu, hw1, -⟩ := split_of_dropWhile_cons hd1
                  obtain ⟨hr2, hw2, -⟩ := split_of_dropWhile_cons hd2
                  obtain ⟨rest, hr3, hnm⟩ := mem_split_takeWhile_ne hM
                  simp only [Option.some.injEq] at h
                  subst h
                  refine ⟨u.takeWhile isRegexSpace, r2.takeWhile isRegexSpace, rest,
                    ?_, hw1, hw2, ?_, hnm⟩
                  · conv_lhs => rw [hu, hr2, hr3]
                    simp [List.append_assoc]
                  · intro hnil
                    rw [hnil] at hE
                    simp at hE
  · rintro ⟨w1, w2, rest, rfl, hw1, hw2, hv, hnq⟩
    have hvq : ∀ x ∈ v, (x != '"') = true := by
      intro x hx
      simp only [bne_iff_ne, ne_eq]
      intro hxeq
      exact hnq (hxeq ▸ hx)
    have hvE : v.isEmpty = false := by
      cases v with
      | nil => exact absurd rfl hv
      | cons a l => rfl
    unfold coMatchAt
    rw [if_pos (isPrefixOf_iff_exists.mpr
      ⟨w1 ++ ':' :: (w2 ++ '"' :: (v ++ '"' :: rest)), by simp [List.append_assoc]⟩)]
    rw [List.append_assoc, List.drop_left]
    rw [dropWhile_append_stop hw1 (by decide)]
    simp only [coTail, eq_self_iff_true, if_true]
    rw [dropWhile_append_stop hw2 (by decide)]
    simp only [coQuote, eq_self_iff_true, if_true]
    rw [takeWhile_append_stop hvq (by decide)]
    rw [hvE]
    simp

theorem thMatchAt_iff {s v : List Char} : thMatchAt s = some v ↔ ThDecomp s v := by
  constructor
  · intro h
    unfold thMatchAt at h
    split at h
    case isFalse => exact absurd h (by simp)
    case isTrue hpre =>
      obtain ⟨u, rfl⟩ := isPrefixOf_iff_exists.mp hpre
      rw [List.drop_left] at h
      cases hd1 : u.dropWhile isRegexSpace with
      | nil => rw [hd1] at h; simp [thTail] at h
      | cons c r2 =>
        rw [hd1] at h
        simp only [thTail] at h
        split at h
        case isFalse => exact absurd h (by simp)
        case isTrue hc =>
          subst hc
          cases hd2 : r2.dropWhile isRegexSpace with
          | nil => rw [hd2] at h; simp [thBracket] at h
          | cons d r3 =>
            rw [hd2] at h
            simp only [thBracket] at h
            split at h
            case isFalse => exact absurd h (by simp)
            case isTrue hd =>
              subst hd
              split at h
              case isFalse => exact absurd h (by simp)
              case isTrue hM =>
                obtain ⟨hu, hw1, -⟩ := split_of_dropWhile_cons hd1
                obtain ⟨hr2, hw2, -⟩ := split_of_dropWhile_cons hd2
                obtain ⟨rest, hr3, hnm⟩ := mem_split_takeWhile_ne hM
                simp only [Option.some.injEq] at h
                subst h
                refine ⟨u.takeWhile isRegexSpace, r2.takeWhile isRegexSpace, rest,
                  ?_, hw1, hw2, hnm⟩
                conv_lhs => rw [hu, hr2, hr3]
                simp [List.append_assoc]
  · rintro ⟨w1, w2, rest, rfl, hw1, hw2, hnq⟩
    have hvq : ∀ x ∈ v, (x != ']') = true := by
      intro x hx
      simp only [bne_iff_ne, ne_eq]
      intro hxeq
      exact hnq (hxeq ▸ hx)
    unfold thMatchAt
    rw [if_pos (isPrefixOf_iff_exists.mpr
      ⟨w1 ++ ':' :: (w2 ++ '[' :: (v ++ ']' :: rest)), by simp [List.append_assoc]⟩)]
    rw [List.append_assoc, List.drop_left]
    rw [dropWhile_append_stop hw1 (by decide)]
    simp only [thTail, eq_self_iff_true, if_true]
    rw [dropWhile_append_stop hw2 (by decide)]
    simp only [thBracket, eq_self_iff_true, if_true]
    rw [takeWhile_append_stop hvq (by decide)]
    simp

theorem IsTermQuote_iff {rem : List Char} {i : Nat} :
    IsTermQuote rem i ↔ (i < rem.length ∧ termQuoteB rem i = true) := by
  unfold IsTermQuote termQuoteB braceFollowsB
  simp only [Bool.and_eq_true, Bool.or_eq_true, beq_iff_eq, Bool.not_eq_true',
    beq_eq_false_iff_ne, ne_eq, and_assoc]

theorem findEndQuoteGo_found (rem : List Char) (tgt : Nat)
    (h : termQuoteB rem tgt = true) (htgt : tgt < rem.length) :
    ∀ fuel i, i ≤ tgt → rem.length ≤ i + fuel →
      (∀ j, i ≤ j → j < tgt → termQuoteB rem j = false) →
      findEndQuoteGo rem fuel i = some tgt := by
  intro fuel
  induction fuel with
  | zero =>
    intro i hi hlen hj
    exfalso
    omega
  | succ fuel ih =>
    intro i hi hlen hj
    simp only [findEndQuoteGo]
    rw [if_pos (by omega : i < rem.length)]
    by_cases hit : i = tgt
    · subst hit
      rw [if_pos h]
    · rw [if_neg (by simp [hj i le_rfl (by omega)])]
      exact ih (i + 1) (by omega) (by omega) (fun j h1 h2 => hj j (by omega) h2)

theorem findEndQuote_eq {rem : List Char} {i : Nat} (hq : IsTermQuote rem i)
    (hmin : ∀ j, j < i → ¬ IsTermQuote rem j) : findEndQuote rem = some i := by
  obtain ⟨hlt, hb⟩ := IsTermQuote_iff.mp hq
  unfold findEndQuote
  refine findEndQuoteGo_found rem i hb hlt rem.length 0 (by omega) (by omega) ?_
  intro j h1 h2
  cases hbj : termQuoteB rem j with
  | false => rfl
  | true => exact absurd (IsTermQuote_iff.mpr ⟨by omega, hbj⟩) (hmin j h2)

/-- Claim C4: when the cleaned MCQ text contains the key "explanation", the
recovered value spans from the first quote after the key's colon up to the
first subsequent quote that is not immediately preceded by a backslash and is
followed (after whitespace) by a closing brace, with an escaped newline
replaced by a literal newline and an escaped quote by a literal quote. -/
theorem mcq_explanation_scan_correct (cs rem : List Char) (i : Nat)
    (hrem : explRemaining cs = some rem) (hq : IsTermQuote rem i)
    (hmin : ∀ j, j < i → ¬ IsTermQuote rem j) :
    explanationOf cs = String.mk (unescapeExpl (rem.take i)) := by
  simp only [explanationOf, hrem, findEndQuote_eq hq hmin]

/-- Witness for C4: the broken-quoting input of the specification yields the
embedded-quote explanation, not the fallback sentinel. -/
theorem mcq_explanation_scan_correct_w :
    explanationOf exExpl = "The answer is \"B\" because..." ∧
      explanationOf exExpl ≠ "No explanation provided" := by
  have h := mcq_explanation_scan_correct exExpl exExplRem 28 rfl (by decide) (by decide)
  exact ⟨h.trans rfl, by rw [h.trans rfl]; decide⟩

/-- Claim C6: for every cleaned MCQ text, the recovered correctOption equals
the first capture group of the first (leftmost) match of the pattern
"correctOption"\s*:\s*"([^"]+)" against the text, and when no such match
exists anywhere it equals the sentinel default "Not specified". -/
theorem mcq_correct_option_regex (cs : List Char) :
    (∀ v, coFind cs = some v →
      correctOptionOf cs = String.mk v ∧
        ∃ n, CoDecomp (cs.drop n) v ∧ ∀ m, m < n → ∀ u, ¬ CoDecomp (cs.drop m) u) ∧
    ((∀ n u, ¬ CoDecomp (cs.drop n) u) → correctOptionOf cs = "Not specified") := by
  constructor
  · intro v h
    refine ⟨?_, scanFirst_some_spec coMatchAt CoDecomp (fun _ _ => coMatchAt_iff) cs v h⟩
    simp [correctOptionOf, h]
  · intro hnone
    cases hfind : coFind cs with
    | some v =>
      obtain ⟨n, hP, -⟩ :=
        scanFirst_some_spec coMatchAt CoDecomp (fun _ _ => coMatchAt_iff) cs v hfind
      exact absurd hP (hnone n v)
    | none => simp [correctOptionOf, hfind]

/-- Witness for C6: a concrete cleaned text where the pattern matches with
capture B. -/
theorem mcq_correct_option_regex_w :
    coFind exCo = some ("B".data) ∧ correctOptionOf exCo = "B" := by
  have h := (mcq_correct_option_regex exCo).1 ("B".data) rfl
  exact ⟨rfl, h.1.trans rfl⟩

/-- Claim C5: when the cleaned MCQ text contains a thoughts array span (the
first match of "thoughts"\s*:\s*\[([\s\S]*?)\]), the recovered list is the
inner text split only at commas followed by optional whitespace and a quote,
each item reduced to its quoted content, empty items dropped; when no array
span is found the result is the single-element sentinel sequence. -/
theorem mcq_thoughts_split_correct (cs : List Char) :
    (∀ inner, thFind cs = some inner →
      thoughtsOf cs = thPipeline inner ∧
        ∃ n, ThDecomp (cs.drop n) inner ∧ ∀ m, m < n → ∀ u, ¬ ThDecomp (cs.drop m) u) ∧
    ((∀ n u, ¬ ThDecomp (cs.drop n) u) →
      thoughtsOf cs = ["No specific reasoning provided"]) := by
  constructor
  · intro inner h
    refine ⟨?_, scanFirst_some_spec thMatchAt ThDecomp (fun _ _ => thMatchAt_iff) cs inner h⟩
    simp [thoughtsOf, h]
  · intro hnone
    cases hfind : thFind cs with
    | some v =>
      obtain ⟨n, hP, -⟩ :=
        scanFirst_some_spec thMatchAt ThDecomp (fun _ _ => thMatchAt_iff) cs v hfind
      exact absurd hP (hnone n v)
    | none => simp [thoughtsOf, hfind]

/-- Witness for C5: an array of two string elements that themselves contain
commas splits into exactly 2 elements, not 4. -/
theorem mcq_thoughts_split_correct_w :
    thoughtsOf exTh = ["First, consider X", "Then, apply Y"] ∧
      (thoughtsOf exTh).length = 2 := by
  have h := (mcq_thoughts_split_correct exTh).1
    ("\"First, consider X\", \"Then, apply Y\"".data) rfl
  have h2 : thoughtsOf exTh = ["First, consider X", "Then, apply Y"] := h.1.trans rfl
  exact ⟨h2, by rw [h2]; rfl⟩

/-- Claim C9: a reply wrapping a contract-conforming JSON object in prose and a
triple-backtick json fence normalizes, in the debug flow, to exactly the record
with the four embedded values; the fence markers and the surrounding prose do
not change the recovered record. -/
theorem fence_tolerance_example :
    debugRespond fenceReply =
      Except.ok ⟨JValue.str "x", JValue.arr [JValue.str "a"],
        JValue.str "O(1)", JValue.str "O(1)"⟩ := by rfl

/-- Claim C10: the last-resort MCQ fallback record has the fixed correctOption
and thoughts values, and as explanation the fence-stripped raw model text
truncated to at most its first 500 characters — a prefix of the cleaned reply,
not a fixed sentinel, as the final inequality shows. -/
theorem mcq_last_resort_fallback :
    (∀ content : List Char,
      (mcqFallbackResponse content).correctOption = "Could not determine" ∧
      (mcqFallbackResponse content).thoughts =
        ["Failed to parse structured response from model"] ∧
      (mcqFallbackResponse content).explanation =
        String.mk ((stripFencesMcq content).take 500) ∧
      (mcqFallbackResponse content).explanation.length ≤ 500 ∧
      (mcqFallbackResponse content).explanation.data <+: stripFencesMcq content) ∧
    (mcqFallbackResponse ("abc".data)).explanation ≠
      (mcqFallbackResponse ("xyz".data)).explanation := by
  constructor
  · intro content
    refine ⟨rfl, rfl, rfl, ?_, ?_⟩
    · show ((stripFencesMcq content).take 500).length ≤ 500
      rw [List.length_take]
      exact Nat.min_le_left _ _
    · show ((stripFencesMcq content).take 500) <+: stripFencesMcq content
      exact List.take_prefix 500 _
  · decide

/-- Claim C1 counterexample: the solution-generation flow surfaces the parse
failure of the empty reply as an error response, and the extraction flow
surfaces a braceless reply as an error response, instead of returning records. -/
theorem generate_extract_error_surface_cex :
    generateRespond ("".data) = Except.error "SyntaxError: JSON.parse failed" ∧
    extractRespond ("no json here".data) =
      Except.error "Could not extract JSON from the model response" := ⟨rfl, rfl⟩

theorem except_isOk_ok {ε α : Type} (a : α) : (Except.ok a : Except ε α).isOk = true := rfl

theorem except_isOk_error {ε α : Type} (e : ε) :
    (Except.error e : Except ε α).isOk = false := rfl

/-- Claim C1 amended: the debug and MCQ normalization steps never surface an
error for any reply text, but POST /api/generate surfaces a JSON parse failure
of the reply as an error response and POST /api/extract surfaces the absence
of a brace span as an error response. -/
theorem normalize_totality_amended (content : List Char) :
    (debugRespond content).isOk = true ∧
    (mcqRespond content).isOk = true ∧
    (jsonParse content = none → (generateRespond content).isOk = false) ∧
    (braceSpan content = none → (extractRespond content).isOk = false) := by
  refine ⟨?_, ?_, ?_, ?_⟩
  · cases hb : braceSpan content with
    | none =>
      cases hp : jsonParse content with
      | none => simp [debugRespond, hb, hp, except_isOk_ok]
      | some v =>
        cases hd : debugDefaultsV v with
        | none => simp [debugRespond, hb, hp, hd, except_isOk_ok]
        | some r => simp [debugRespond, hb, hp, hd, except_isOk_ok]
    | some span =>
      cases hp : jsonParse span with
      | none => simp [debugRespond, hb, hp, except_isOk_ok]
      | some v =>
        cases hd : debugDefaultsV v with
        | none => simp [debugRespond, hb, hp, hd, except_isOk_ok]
        | some r => simp [debugRespond, hb, hp, hd, except_isOk_ok]
  · cases hp : jsonParse (mcqCleaned content) with
    | none => simp [mcqRespond, hp, except_isOk_ok]
    | some v => simp [mcqRespond, hp, except_isOk_ok]
  · intro h
    simp [generateRespond, h, except_isOk_error]
  · intro h
    simp [extractRespond, h, except_isOk_error]

/-- Witness for amended C1 at the empty reply. -/
theorem normalize_totality_amended_w :
    (debugRespond []).isOk = true ∧ (mcqRespond []).isOk = true ∧
      (generateRespond []).isOk = false ∧ (extractRespond []).isOk = false := by
  have h := normalize_totality_amended []
  exact ⟨h.1, h.2.1, h.2.2.1 rfl, h.2.2.2 rfl⟩

/-- Claim C3 counterexample: a reply that is valid JSON as a whole but whose
greedy brace span fails to parse goes straight to the fixed fallback record;
the strict parse of the entire text is not attempted and no field-by-field
recovery exists in the debug flow. -/
theorem debug_extractor_order_cex :
    jsonParse quirkyReply = some (JValue.arr [JValue.str "\x7b", JValue.str "\x7d"]) ∧
    braceSpan quirkyReply = some ("\x7b\",\"\x7d".data) ∧
    jsonParse ("\x7b\",\"\x7d".data) = none ∧
    debugRespond quirkyReply = Except.ok (debugFallback quirkyReply) ∧
    (debugFallback quirkyReply).code = JValue.str "[\"\x7b\",\"\x7d\"]" :=
  ⟨rfl, rfl, rfl, rfl, rfl⟩

/-- Claim C3 amended: the debug extractor takes the greedy span from the first
opening brace to the last closing brace and strict-parses it; the whole reply
is strict-parsed only when no brace span exists; when the attempted parse
fails, the flow falls back directly to the fixed fallback record. -/
theorem debug_extractor_amended (s : List Char) :
    (∀ span, braceSpan s = some span → jsonParse span = none →
      debugRespond s = Except.ok (debugFallback s)) ∧
    (braceSpan s = none → jsonParse s = none →
      debugRespond s = Except.ok (debugFallback s)) ∧
    (∀ v r, braceSpan s = none → jsonParse s = some v → debugDefaultsV v = some r →
      debugRespond s = Except.ok r) := by
  refine ⟨?_, ?_, ?_⟩
  · intro span h1 h2
    simp [debugRespond, h1, h2]
  · intro h1 h2
    simp [debugRespond, h1, h2]
  · intro v r h1 h2 h3
    simp [debugRespond, h1, h2, h3]

/-- Witness for amended C3 at the counterexample reply. -/
theorem debug_extractor_amended_w :
    debugRespond quirkyReply = Except.ok (debugFallback quirkyReply) :=
  (debug_extractor_amended quirkyReply).1 ("\x7b\",\"\x7d".data) rfl rfl

/-- Claim C7: in the debug flow, after a successful JSON parse of an object,
every missing or falsy required field is replaced by its contract default:
code by the empty string, thoughts by the single-element placeholder when
absent or not an array, and the two complexities by the sentinel. -/
theorem debug_default_substitution (s span : List Char) (o : List (String × JValue))
    (r : SolutionRecord) (h1 : braceSpan s = some span)
    (h2 : jsonParse span = some (JValue.obj o)) (hr : debugRespond s = Except.ok r) :
    ((jsonGet o "code" = none ∨ ∃ v, jsonGet o "code" = some v ∧ jsTruthy v = false) →
      r.code = JValue.str "") ∧
    ((jsonGet o "thoughts" = none ∨
        ∃ v, jsonGet o "thoughts" = some v ∧ ∀ l, v ≠ JValue.arr l) →
      r.thoughts = JValue.arr [JValue.str "No specific debug observations provided"]) ∧
    ((jsonGet o "time_complexity" = none ∨
        ∃ v, jsonGet o "time_complexity" = some v ∧ jsTruthy v = false) →
      r.time_complexity = JValue.str "Not specified") ∧
    ((jsonGet o "space_complexity" = none ∨
        ∃ v, jsonGet o "space_complexity" = some v ∧ jsTruthy v = false) →
      r.space_complexity = JValue.str "Not specified") := by
  have hd : debugRespond s = Except.ok
      { code :=
          (match jsonGet o "code" with
           | some w => if jsTruthy w then w else JValue.str ""
           | none => JValue.str "")
        thoughts :=
          (match jsonGet o "thoughts" with
           | some (JValue.arr l) => JValue.arr l
           | _ => JValue.arr [JValue.str "No specific debug observations provided"])
        time_complexity :=
          (match jsonGet o "time_complexity" with
           | some w => if jsTruthy w then w else JValue.str "Not specified"
           | none => JValue.str "Not specified")
        space_complexity :=
          (match jsonGet o "space_complexity" with
           | some w => if jsTruthy w then w else JValue.str "Not specified"
           | none => JValue.str "Not specified") } := by
    simp [debugRespond, h1, h2, debugDefaultsV, jsProp]
  have hro := hd.symm.trans hr
  simp only [Except.ok.injEq] at hro
  subst hro
  refine ⟨?_, ?_, ?_, ?_⟩
  · rintro (hc | ⟨v, hv, hfv⟩)
    · simp [hc]
    · simp [hv, hfv]
  · rintro (hc | ⟨v, hv, hna⟩)
    · simp [hc]
    · cases v with
      | arr l => exact absurd rfl (hna l)
      | null => simp [hv]
      | bool b => simp [hv]
      | num n => simp [hv]
      | str s2 => simp [hv]
      | obj o2 => simp [hv]
  · rintro (hc | ⟨v, hv, hfv⟩)
    · simp [hc]
    · simp [hv, hfv]
  · rintro (hc | ⟨v, hv, hfv⟩)
    · simp [hc]
    · simp [hv, hfv]

/-- Witness for C7: a reply with no recognizable time_complexity key yields the
sentinel Not specified rather than an absent or null field. -/
theorem debug_default_substitution_w :
    debugRespond exDefaults = Except.ok
      ⟨JValue.str "x", JValue.arr [JValue.str "a"],
        JValue.str "Not specified", JValue.str "Not specified"⟩ ∧
    (⟨JValue.str "x", JValue.arr [JValue.str "a"], JValue.str "Not specified",
        JValue.str "Not specified"⟩ : SolutionRecord).time_complexity =
      JValue.str "Not specified" := by
  refine ⟨rfl, ?_⟩
  exact (debug_default_substitution exDefaults exDefaults
    [("code", JValue.str "x"), ("thoughts", JValue.arr [JValue.str "a"])]
    ⟨JValue.str "x", JValue.arr [JValue.str "a"], JValue.str "Not specified",
      JValue.str "Not specified"⟩ rfl rfl rfl).2.2.1 (Or.inl rfl)

/-- Claim C8 counterexample: a reply whose greedy brace span is a well-formed
contract-matching JSON object with time_complexity the empty string does not
round-trip: the debug flow returns the sentinel Not specified instead of the
source value, because the empty string is falsy. -/
theorem debug_roundtrip_falsy_cex :
    braceSpan exRound = some exRound ∧
    jsonParse exRound = some (JValue.obj
      [("code", JValue.str "x"), ("thoughts", JValue.arr [JValue.str "a"]),
       ("time_complexity", JValue.str ""), ("space_complexity", JValue.str "O(1)")]) ∧
    debugRespond exRound = Except.ok
      ⟨JValue.str "x", JValue.arr [JValue.str "a"], JValue.str "Not specified",
        JValue.str "O(1)"⟩ ∧
    JValue.str "Not specified" ≠ JValue.str "" := by
  refine ⟨rfl, rfl, rfl, ?_⟩
  intro h
  injection h with h2
  exact absurd h2 (by decide)

theorem str_isEmpty_false {s : String} (h : s ≠ "") : s.isEmpty = false := by
  cases hE : s.isEmpty with
  | false => rfl
  | true => exact absurd ((String.isEmpty_iff s).mp hE) h

/-- Claim C8 amended: the round-trip holds for every reply whose greedy brace
span parses to a contract-matching object whose two complexity strings are
nonempty; code may be any string and thoughts any string array, including
empty ones. -/
theorem debug_roundtrip_amended (s span : List Char) (o : List (String × JValue))
    (c t sp : String) (ts : List JValue)
    (h1 : braceSpan s = some span) (h2 : jsonParse span = some (JValue.obj o))
    (hc : jsonGet o "code" = some (JValue.str c))
    (hts : jsonGet o "thoughts" = some (JValue.arr ts))
    (_hstr : ∀ v ∈ ts, ∃ u, v = JValue.str u)
    (ht : jsonGet o "time_complexity" = some (JValue.str t))
    (hsp : jsonGet o "space_complexity" = some (JValue.str sp))
    (ht0 : t ≠ "") (hsp0 : sp ≠ "") :
    debugRespond s = Except.ok
      ⟨JValue.str c, JValue.arr ts, JValue.str t, JValue.str sp⟩ := by
  have htT : jsTruthy (JValue.str t) = true := by
    simp [jsTruthy, str_isEmpty_false ht0]
  have hspT : jsTruthy (JValue.str sp) = true := by
    simp [jsTruthy, str_isEmpty_false hsp0]
  have hcC : (if jsTruthy (JValue.str c) then JValue.str c else JValue.str "") =
      JValue.str c := by
    by_cases hce : c = ""
    · subst hce; simp
    · rw [if_pos]
      simp [jsTruthy, str_isEmpty_false hce]
  simp [debugRespond, h1, h2, debugDefaultsV, jsProp, hc, hts, ht, hsp, htT, hspT, hcC]

/-- Witness for amended C8: exact round-trip of a record with empty code and
empty thoughts but nonempty complexities. -/
theorem debug_roundtrip_amended_w :
    debugRespond exRound2 = Except.ok
      ⟨JValue.str "", JValue.arr [], JValue.str "O(n)", JValue.str "O(1)"⟩ :=
  debug_roundtrip_amended exRound2 exRound2
    [("code", JValue.str ""), ("thoughts", JValue.arr []),
     ("time_complexity", JValue.str "O(n)"), ("space_complexity", JValue.str "O(1)")]
    "" "O(n)" "O(1)" [] rfl rfl rfl rfl (by simp) rfl rfl (by decide) (by decide)

theorem fieldOk_thoughts (ts : List String) :
    FieldOk ("thoughts", JValue.arr (ts.map JValue.str)) := by
  refine ⟨Or.inl rfl, fun _ => ⟨ts, rfl⟩, ?_, ?_, ?_⟩ <;> intro h <;> simp at h

theorem fieldOk_code (c : String) : FieldOk ("code", JValue.str c) := by
  refine ⟨Or.inr (Or.inl rfl), ?_, fun _ => ⟨c, rfl⟩, ?_, ?_⟩ <;> intro h <;> simp at h

theorem fieldOk_time (t : String) : FieldOk ("time_complexity", JValue.str t) := by
  refine ⟨Or.inr (Or.inr (Or.inl rfl)), ?_, ?_, fun _ => ⟨t, rfl⟩, ?_⟩ <;>
    intro h <;> simp at h

theorem fieldOk_space (t : String) : FieldOk ("space_complexity", JValue.str t) := by
  refine ⟨Or.inr (Or.inr (Or.inr rfl)), ?_, ?_, ?_, fun _ => ⟨t, rfl⟩⟩ <;>
    intro h <;> simp at h

theorem mem_optPairs {r : OptSolution} {kv : String × JValue} (h : kv ∈ optPairs r) :
    (∃ ts : List String, kv = ("thoughts", JValue.arr (ts.map JValue.str))) ∨
    (∃ c, kv = ("code", JValue.str c)) ∨
    (∃ t, kv = ("time_complexity", JValue.str t)) ∨
    (∃ t, kv = ("space_complexity", JValue.str t)) := by
  unfold optPairs at h
  rcases List.mem_append.mp h with h123 | h4
  · rcases List.mem_append.mp h123 with h12 | h3
    · rcases List.mem_append.mp h12 with h1 | h2
      · left
        cases hx : r.thoughts with
        | some ts => rw [hx] at h1; simp at h1; exact ⟨ts, h1⟩
        | none => rw [hx] at h1; simp at h1
      · right; left
        cases hx : r.code with
        | some c => rw [hx] at h2; simp at h2; exact ⟨c, h2⟩
        | none => rw [hx] at h2; simp at h2
    · right; right; left
      cases hx : r.time_complexity with
      | some t => rw [hx] at h3; simp at h3; exact ⟨t, h3⟩
      | none => rw [hx] at h3; simp at h3
  · right; right; right
    cases hx : r.space_complexity with
    | some t => rw [hx] at h4; simp at h4; exact ⟨t, h4⟩
    | none => rw [hx] at h4; simp at h4

theorem optPairs_FieldOk (r : OptSolution) : ∀ kv ∈ optPairs r, FieldOk kv := by
  intro kv hkv
  rcases mem_optPairs hkv with ⟨ts, rfl⟩ | ⟨c, rfl⟩ | ⟨t, rfl⟩ | ⟨t, rfl⟩
  · exact fieldOk_thoughts ts
  · exact fieldOk_code c
  · exact fieldOk_time t
  · exact fieldOk_space t

theorem revisedFallbackJson_FieldOk (s : List Char) (o : List (String × JValue))
    (h : revisedFallbackJson s = JValue.obj o) : ∀ kv ∈ o, FieldOk kv := by
  intro kv hkv
  unfold revisedFallbackJson at h
  simp only [JValue.obj.injEq] at h
  subst h
  simp only [List.mem_cons, List.not_mem_nil, or_false] at hkv
  rcases hkv with rfl | rfl | rfl | rfl
  · exact fieldOk_code _
  · exact fieldOk_thoughts ["Automatically extracted from unstructured response"]
  · exact fieldOk_time _
  · exact fieldOk_space _

/-- Claim C2 counterexample: the success path of the second-revision generate
flows returns the empty record for the reply consisting of an empty JSON
object, missing all four fields of the contract. -/
theorem optional_schema_partial_record_cex :
    revisedGenRespond ("\x7b\x7d".data) = JValue.obj [] := rfl

/-- Claim C2 amended: every record returned by the second-revision generate
flows carries only the four contract keys, each present field well typed and a
present thoughts field a string array (never null); fields absent from the
model reply may be absent from the record, since the schema marks all four
optional. -/
theorem revised_generate_contract_amended (s : List Char) (o : List (String × JValue))
    (h : revisedGenRespond s = JValue.obj o) : ∀ kv ∈ o, FieldOk kv := by
  unfold revisedGenRespond at h
  split at h
  · split at h
    · split at h
      · simp only [JValue.obj.injEq] at h
        subst h
        exact optPairs_FieldOk _
      · exact revisedFallbackJson_FieldOk s o h
    · exact revisedFallbackJson_FieldOk s o h
  · split at h
    · split at h
      · simp only [JValue.obj.injEq] at h
        subst h
        exact optPairs_FieldOk _
      · exact revisedFallbackJson_FieldOk s o h
    · exact revisedFallbackJson_FieldOk s o h

/-- Witness for amended C2: a reply carrying only a code field yields a record
with exactly that one well-typed field. -/
theorem revised_generate_contract_amended_w : FieldOk ("code", JValue.str "x") :=
  revised_generate_contract_amended exOpt [("code", JValue.str "x")] rfl
    ("code", JValue.str "x") (by simp)
